import Mathlib

/-!
Shallow embedding of the quantitative stock scorer's metric-derivation and
correlation code (`get_metrics.py`, `correlations.py`), together with proofs
about it.

Numeric cell values are modelled as rationals (`ℚ`); Python's numeric-or-`None`
cells become `Option ℚ`, and reading past the end of an array yields `none`,
matching the code's index-bound checks.  The one genuinely real-valued step,
the annualization `(1 + r) ** (1/years)` in the forward-return computation, is
modelled over `ℝ` with `Real.rpow`.
-/

namespace StockScorer

/-- Reads `arr[j]` when `j` is in bounds and the stored cell is non-null, else
`none`.  Models the pervasive source pattern
`arr[j] if j < len(arr) and arr[j] is not None`. -/
def getOpt (l : List (Option ℚ)) (j : ℕ) : Option ℚ := (l[j]?).join

/-- Reads `arr[j] if j < len(arr) and arr[j] is not None else 0.0`
(`get_metrics.py` lines 124-125, 163). -/
def getNum (l : List (Option ℚ)) (j : ℕ) : ℚ := (getOpt l j).getD 0

/-- Quarterly total return (`get_metrics.py` lines 159-165): for `j > 0` with
`j - 1` in bounds of the price array, when both the 0.0-defaulted previous and
current prices are positive,
`((price[j] - price[j-1] + dividend[j]) / price[j-1]) * 100`; otherwise null. -/
def total_return (prices dividends : List (Option ℚ)) (j : ℕ) : Option ℚ :=
  let current_price := getNum prices j
  let current_dividend := getNum dividends j
  if 0 < j ∧ j - 1 < prices.length then
    let prev_price := getNum prices (j - 1)
    if 0 < prev_price ∧ 0 < current_price then
      some (((current_price - prev_price + current_dividend) / prev_price) * 100)
    else none
  else none

/-- The per-company list of quarterly total returns; the derivation loop runs
over `range(len(period_dates))` (`get_metrics.py` line 123), so the list has
one entry per period. -/
def total_return_list (n : ℕ) (prices dividends : List (Option ℚ)) : List (Option ℚ) :=
  (List.range n).map (total_return prices dividends)

/-- Point-in-time EBIT/PPE (`get_metrics.py` lines 128-133):
`operating_income[j] / ppe_net[j]` when both are in bounds, non-null and the
PPE is nonzero; otherwise null. -/
def ebit_ppe (operating_income ppe_net : List (Option ℚ)) (j : ℕ) : Option ℚ :=
  match getOpt operating_income j, getOpt ppe_net j with
  | some oi, some ppe => if ppe ≠ 0 then some (oi / ppe) else none
  | _, _ => none

/-- Gross margin (`get_metrics.py` lines 135-140):
`(revenue[j] - cogs[j]) / revenue[j]` when both are in bounds, non-null and the
revenue is nonzero; otherwise null. -/
def gross_margin (revenue cogs : List (Option ℚ)) (j : ℕ) : Option ℚ :=
  match getOpt revenue j, getOpt cogs j with
  | some rev, some c => if rev ≠ 0 then some ((rev - c) / rev) else none
  | _, _ => none

/-- Operating margin (`get_metrics.py` lines 142-147):
`operating_income[j] / revenue[j]` when both are in bounds, non-null and the
revenue is nonzero; otherwise null. -/
def operating_margin (operating_income revenue : List (Option ℚ)) (j : ℕ) : Option ℚ :=
  match getOpt operating_income j, getOpt revenue j with
  | some oi, some rev => if rev ≠ 0 then some (oi / rev) else none
  | _, _ => none

/-- EV/EBIT (`get_metrics.py` lines 149-157):
`enterprise_value[j] / operating_income[j]` when both are in bounds, non-null
and the operating income is nonzero; otherwise null.  The sign of the
enterprise value is not checked. -/
def ev_ebit (enterprise_value operating_income : List (Option ℚ)) (j : ℕ) : Option ℚ :=
  match getOpt enterprise_value j, getOpt operating_income j with
  | some ev, some oi => if oi ≠ 0 then some (ev / oi) else none
  | _, _ => none

/-- One step of the TTM accumulation loop (`get_metrics.py` lines 283-296):
add the quarter's operating income and PPE to the running sums, or abort to
`none` when either value is out of bounds or null. -/
def ttmStep (oi ppe : List (Option ℚ)) : Option (ℚ × ℚ) → ℕ → Option (ℚ × ℚ) :=
  fun acc k => acc.bind fun s =>
    match getOpt oi k, getOpt ppe k with
    | some a, some b => some (s.1 + a, s.2 + b)
    | _, _ => none

/-- TTM EBIT/PPE (`get_metrics.py` lines 272-302): for `j ≥ 3`, sum operating
income and PPE over quarters `j-3 … j`; abort to null when any of the eight
inputs is out of bounds or null, and also return null when the summed PPE is
zero.  For `j < 3` always null. -/
def ebit_ppe_ttm (oi ppe : List (Option ℚ)) (j : ℕ) : Option ℚ :=
  if 3 ≤ j then
    match (List.range' (j - 3) 4).foldl (ttmStep oi ppe) (some (0, 0)) with
    | some s => if s.2 ≠ 0 then some (s.1 / s.2) else none
    | none => none
  else none

/-- One step of the forward-return compounding loop (`get_metrics.py`
lines 202-213): multiply the running value by `1 + total_return[k]/100`, or
abort to `none` when `total_return[k]` is out of bounds or null. -/
def compStep (trs : List (Option ℚ)) : Option ℚ → ℕ → Option ℚ :=
  fun acc k => acc.bind fun v => (getOpt trs k).map fun r => v * (1 + r / 100)

/-- The fixed-horizon compounding walk: start at 100.0 and fold `compStep`
over the given index window in ascending order. -/
def compound (trs : List (Option ℚ)) (ks : List ℕ) : Option ℚ :=
  ks.foldl (compStep trs) (some 100)

/-- One step of the open-horizon compounding loop (`get_metrics.py`
lines 241-250), which also counts the number of quarters compounded. -/
def compCountStep (trs : List (Option ℚ)) : Option (ℚ × ℕ) → ℕ → Option (ℚ × ℕ) :=
  fun acc k => acc.bind fun vn => (getOpt trs k).map fun r => (vn.1 * (1 + r / 100), vn.2 + 1)

/-- The open-horizon compounding walk with quarter count, starting at
`(100.0, 0)`. -/
def compoundCount (trs : List (Option ℚ)) (ks : List ℕ) : Option (ℚ × ℕ) :=
  ks.foldl (compCountStep trs) (some (100, 0))

/-- Annualization (`get_metrics.py` lines 216-229 and 253-266):
`((1 + cumulative_return/100) ** (1/years) - 1) * 100` with
`cumulative_return = value - 100` and `years = quarters / 4.0`.
The Python float power `**` is modelled by `Real.rpow`. -/
noncomputable def annualize (cum : ℚ) (quarters : ℕ) : ℝ :=
  ((1 + ((cum : ℝ) - 100) / 100) ^ ((1 : ℝ) / ((quarters : ℝ) / 4)) - 1) * 100

/-- Fixed-horizon forward return (`get_metrics.py` lines 194-230): requires
`j + H < len`, compounds `total_return[j+1 … j+H]` in ascending order, and
annualizes with `years = H / 4.0` (the `years > 0` guard is line 223). -/
noncomputable def forward_return_fixed (trs : List (Option ℚ)) (j H : ℕ) : Option ℝ :=
  if j + H < trs.length then
    match compound trs (List.range' (j + 1) H) with
    | some cum => if 0 < H then some (annualize cum H) else none
    | none => none
  else none

/-- Open-horizon forward return (`get_metrics.py` lines 232-268): requires
`j < len - 1`, compounds `total_return[j+1 … len-1]` in ascending order, and
annualizes with `years = num_quarters / 4.0` (guards `num_quarters > 0` at
line 252 and `years > 0` at line 260). -/
noncomputable def total_forward_return (trs : List (Option ℚ)) (j : ℕ) : Option ℝ :=
  if j < trs.length - 1 then
    match compoundCount trs (List.range' (j + 1) (trs.length - 1 - j)) with
    | some vn => if 0 < vn.2 then some (annualize vn.1 vn.2) else none
    | none => none
  else none

/-- The normalized per-company input arrays, i.e. the state of
`extract_quarterly_data` after the key lookups and list coercions of
`get_metrics.py` lines 70-119. -/
structure RawInput where
  symbol : String
  company_name : String
  period_dates : List String
  prices : List (Option ℚ)
  dividends : List (Option ℚ)
  roa : List (Option ℚ)
  operating_income : List (Option ℚ)
  ppe_net : List (Option ℚ)
  revenue : List (Option ℚ)
  cost_of_goods_sold : List (Option ℚ)
  enterprise_value : List (Option ℚ)

/-- A JSON-like field value stored in a quarterly entry: a period string, a
number, or null. -/
inductive FieldVal
  | str (s : String)
  | num (x : ℝ)
  | null

/-- Lifts a rational-or-null cell into a `FieldVal`. -/
def FieldVal.ofQ : Option ℚ → FieldVal
  | some q => .num (q : ℝ)
  | none => .null

/-- Lifts a real-or-null cell into a `FieldVal`. -/
def FieldVal.ofR : Option ℝ → FieldVal
  | some x => .num x
  | none => .null

/-- The total-return list of a raw input, indexed by its period list. -/
def trList (inp : RawInput) : List (Option ℚ) :=
  total_return_list inp.period_dates.length inp.prices inp.dividends

/-- The quarterly entry produced by `extract_quarterly_data` for index `j`, as
the association list of dict keys in insertion order: the base dict of
`get_metrics.py` lines 167-177, then the four fixed-horizon forward returns
and the open-horizon forward return (lines 188-268), then the TTM ratio
(lines 272-302). -/
noncomputable def quarterly_entry (inp : RawInput) (j : ℕ) : List (String × FieldVal) :=
  [("period", FieldVal.str (inp.period_dates.getD j "")),
   ("price", FieldVal.num ((getNum inp.prices j : ℚ) : ℝ)),
   ("dividends", FieldVal.num ((getNum inp.dividends j : ℚ) : ℝ)),
   ("roa", FieldVal.ofQ (getOpt inp.roa j)),
   ("ebit_ppe", FieldVal.ofQ (ebit_ppe inp.operating_income inp.ppe_net j)),
   ("gross_margin", FieldVal.ofQ (gross_margin inp.revenue inp.cost_of_goods_sold j)),
   ("operating_margin", FieldVal.ofQ (operating_margin inp.operating_income inp.revenue j)),
   ("ev_ebit", FieldVal.ofQ (ev_ebit inp.enterprise_value inp.operating_income j)),
   ("total_return", FieldVal.ofQ (total_return inp.prices inp.dividends j)),
   ("forward_return_1y", FieldVal.ofR (forward_return_fixed (trList inp) j 4)),
   ("forward_return_3y", FieldVal.ofR (forward_return_fixed (trList inp) j 12)),
   ("forward_return_5y", FieldVal.ofR (forward_return_fixed (trList inp) j 20)),
   ("forward_return_10y", FieldVal.ofR (forward_return_fixed (trList inp) j 40)),
   ("forward_return", FieldVal.ofR (total_forward_return (trList inp) j)),
   ("ebit_ppe_ttm", FieldVal.ofQ (ebit_ppe_ttm inp.operating_income inp.ppe_net j))]

/-- The per-company output record of `extract_quarterly_data`
(`get_metrics.py` lines 304-308). -/
structure CompanyOut where
  symbol : String
  company_name : String
  data : List (List (String × FieldVal))

/-- The full derivation-stage output for one company: one entry per period. -/
noncomputable def extract_quarterly_data (inp : RawInput) : CompanyOut :=
  { symbol := inp.symbol
    company_name := inp.company_name
    data := (List.range inp.period_dates.length).map (quarterly_entry inp) }

/-- `entry.get(key)`: the stored value, or null when the key is absent. -/
def lookupOr (e : List (String × FieldVal)) (k : String) : FieldVal :=
  (e.lookup k).getD FieldVal.null

/-- The persisted per-quarter entry built by `save_metrics_to_json`
(`get_metrics.py` lines 423-437), as the association list of dict keys in
insertion order. -/
def output_entry (e : List (String × FieldVal)) : List (String × FieldVal) :=
  [("period", lookupOr e "period"),
   ("total_return", lookupOr e "total_return"),
   ("forward_return", lookupOr e "forward_return"),
   ("forward_return_1y", lookupOr e "forward_return_1y"),
   ("forward_return_3y", lookupOr e "forward_return_3y"),
   ("forward_return_5y", lookupOr e "forward_return_5y"),
   ("forward_return_10y", lookupOr e "forward_return_10y"),
   ("roa", lookupOr e "roa"),
   ("ebit_ppe", lookupOr e "ebit_ppe"),
   ("ebit_ppe_ttm", lookupOr e "ebit_ppe_ttm"),
   ("gross_margin", lookupOr e "gross_margin"),
   ("operating_margin", lookupOr e "operating_margin"),
   ("ev_ebit", lookupOr e "ev_ebit")]

/-! ## Correlation pipeline (`correlations.py`) -/

/-- A loaded per-quarter entry as seen by the correlation pipeline: the `roa`
and `forward_return` fields, each numeric or null. -/
structure PoolEntry where
  roa : Option ℚ
  forward_return : Option ℚ
deriving DecidableEq

/-- A loaded per-company record as seen by the correlation pipeline. -/
structure PoolCompany where
  symbol : String
  data : List PoolEntry
deriving DecidableEq

/-- The pair kept for an entry by the filter in
`extract_roa_forward_return_pairs` (`correlations.py` lines 47-57): `some`
exactly when both the ROA and the forward return are present (non-null
numeric). -/
def pairOf (e : PoolEntry) : Option (ℚ × ℚ) :=
  match e.roa, e.forward_return with
  | some r, some f => some (r, f)
  | _, _ => none

/-- One step of the entry loop of `extract_roa_forward_return_pairs`
(`correlations.py` lines 46-57): append to both parallel lists when the entry
passes the filter, else keep the accumulator. -/
def poolStep : List ℚ × List ℚ → PoolEntry → List ℚ × List ℚ :=
  fun acc e =>
    match pairOf e with
    | some p => (acc.1 ++ [p.1], acc.2 ++ [p.2])
    | none => acc

/-- `extract_roa_forward_return_pairs` (`correlations.py` lines 30-59):
iterate companies and entries in order, appending to the two parallel value
lists whenever both fields are present. -/
def extract_roa_forward_return_pairs (data : List PoolCompany) : List ℚ × List ℚ :=
  data.foldl (fun acc stock => stock.data.foldl poolStep acc) ([], [])

/-- The pooled pair list: all kept `(roa, forward_return)` pairs in traversal
order. -/
def pooledPairs (data : List PoolCompany) : List (ℚ × ℚ) :=
  data.flatMap fun c => c.data.filterMap pairOf

/-- Average-method fractional ranking, modelling
`scipy.stats.rankdata(a, method = "average")` as used at `correlations.py`
lines 97-98: each value receives the mean of the positions it would jointly
occupy in the sorted order, i.e. `(number of strictly smaller values) +
((number of equal values) + 1) / 2`. -/
def rankdata_average (xs : List ℚ) : List ℚ :=
  xs.map fun x =>
    ((xs.countP fun y => decide (y < x)) : ℚ) +
      (((xs.countP fun y => decide (y = x)) : ℚ) + 1) / 2

/-- The condition asserted at `correlations.py` lines 101-104: the rank array
has minimum 1 and maximum `n`. -/
def ranksSpanOk (ranks : List ℚ) (n : ℕ) : Bool :=
  decide (ranks.minimum = ((1 : ℚ) : WithTop ℚ)) &&
    decide (ranks.maximum = ((n : ℚ) : WithBot ℚ))

/-- Population mean of a list of rationals (models `np.mean`). -/
def qMean (xs : List ℚ) : ℚ := xs.sum / xs.length

/-- Population standard deviation (models `np.std`). -/
noncomputable def qStd (xs : List ℚ) : ℝ :=
  Real.sqrt (((xs.map fun x => (x - qMean xs) ^ 2).sum : ℚ) / xs.length)

/-- Minimum of a list (models `np.min`; only used on nonempty lists). -/
def listMin (xs : List ℚ) : ℚ := xs.foldl min (xs.headD 0)

/-- Maximum of a list (models `np.max`; only used on nonempty lists). -/
def listMax (xs : List ℚ) : ℚ := xs.foldl max (xs.headD 0)

/-- The Pearson product-moment correlation coefficient, modelling
`scipy.stats.pearsonr(x, y)[0]`: `Σ(x-x̄)(y-ȳ) / sqrt(Σ(x-x̄)² Σ(y-ȳ)²)`,
with `none` standing for the NaN scipy returns when either input has zero
variance. -/
noncomputable def pearsonCoeff (xs ys : List ℚ) : Option ℝ :=
  let xb := qMean xs
  let yb := qMean ys
  let sxx : ℚ := (xs.map fun x => (x - xb) ^ 2).sum
  let syy : ℚ := (ys.map fun y => (y - yb) ^ 2).sum
  let sxy : ℚ := ((xs.zip ys).map fun p => (p.1 - xb) * (p.2 - yb)).sum
  if sxx = 0 ∨ syy = 0 then none
  else some ((sxy : ℝ) / Real.sqrt ((sxx : ℝ) * (syy : ℝ)))

/-- The two p-value computations (`scipy.stats.pearsonr` and
`scipy.stats.spearmanr` second components) are statistical internals outside
the scope of the claims; the embedding treats them as uninterpreted
functions. -/
structure PValModel where
  pearson_p : List ℚ → List ℚ → Option ℝ
  spearman_p : List ℚ → List ℚ → Option ℝ

/-- A concrete trivial instance of the uninterpreted p-value functions, used
to state closed facts about `calculate_correlations`. -/
def pmNone : PValModel := ⟨fun _ _ => none, fun _ _ => none⟩

/-- The errors `calculate_correlations` can raise: the explicit `ValueError`
of `correlations.py` line 73, and the `AssertionError` of the rank-range
asserts at lines 101-104. -/
inductive CorrError
  | valueError (msg : String)
  | assertionError (msg : String)
deriving DecidableEq

/-- The result dictionary of `calculate_correlations`.  Fields absent from one
of the two return dictionaries (`correlations.py` lines 76-87 and 121-139)
are `none` in the branch that omits them. -/
structure CorrResult where
  n_pairs : ℕ
  pearson_correlation : Option ℝ
  pearson_pvalue : Option ℝ
  ranked_correlation : Option ℝ
  ranked_pvalue : Option ℝ
  spearman_correlation : Option ℝ
  spearman_pvalue : Option ℝ
  roa_mean : Option ℝ
  roa_std : Option ℝ
  roa_min : Option ℝ
  roa_max : Option ℝ
  forward_return_mean : Option ℝ
  forward_return_std : Option ℝ
  forward_return_min : Option ℝ
  forward_return_max : Option ℝ
  roa_ranks : List ℚ
  forward_return_ranks : List ℚ
  error : Option String

/-- `calculate_correlations` (`correlations.py` lines 61-139): raises
`ValueError` on a length mismatch; returns the degenerate dictionary when
fewer than 2 pairs are available; otherwise ranks both sequences, checks the
rank-range assertions, and returns the full statistics dictionary. -/
noncomputable def calculate_correlations (pm : PValModel) (roa_values forward_return_values : List ℚ) :
    Except CorrError CorrResult :=
  if roa_values.length ≠ forward_return_values.length then
    .error (.valueError "ROA and forward return lists must have the same length")
  else if roa_values.length < 2 then
    .ok { n_pairs := roa_values.length
          pearson_correlation := none, pearson_pvalue := none
          ranked_correlation := none, ranked_pvalue := none
          spearman_correlation := none, spearman_pvalue := none
          roa_mean := none, roa_std := none, roa_min := none, roa_max := none
          forward_return_mean := none, forward_return_std := none
          forward_return_min := none, forward_return_max := none
          roa_ranks := [], forward_return_ranks := []
          error := some "Insufficient data points for correlation" }
  else
    let roa_ranks := rankdata_average roa_values
    let forward_return_ranks := rankdata_average forward_return_values
    if ranksSpanOk roa_ranks roa_values.length then
      if ranksSpanOk forward_return_ranks forward_return_values.length then
        .ok { n_pairs := roa_values.length
              pearson_correlation := pearsonCoeff roa_values forward_return_values
              pearson_pvalue := pm.pearson_p roa_values forward_return_values
              ranked_correlation := pearsonCoeff roa_ranks forward_return_ranks
              ranked_pvalue := pm.pearson_p roa_ranks forward_return_ranks
              spearman_correlation := pearsonCoeff (rankdata_average roa_values)
                (rankdata_average forward_return_values)
              spearman_pvalue := pm.spearman_p roa_values forward_return_values
              roa_mean := some ((qMean roa_values : ℚ) : ℝ)
              roa_std := some (qStd roa_values)
              roa_min := some ((listMin roa_values : ℚ) : ℝ)
              roa_max := some ((listMax roa_values : ℚ) : ℝ)
              forward_return_mean := some ((qMean forward_return_values : ℚ) : ℝ)
              forward_return_std := some (qStd forward_return_values)
              forward_return_min := some ((listMin forward_return_values : ℚ) : ℝ)
              forward_return_max := some ((listMax forward_return_values : ℚ) : ℝ)
              roa_ranks := roa_ranks
              forward_return_ranks := forward_return_ranks
              error := none }
      else
        .error (.assertionError
          ("Forward return ranks should range from 1 to " ++ toString forward_return_values.length))
    else
      .error (.assertionError
        ("ROA ranks should range from 1 to " ++ toString roa_values.length))

/-! ## Fold lemmas for the compounding and TTM walks -/

theorem compStep_foldl_none (trs : List (Option ℚ)) (ks : List ℕ) :
    ks.foldl (compStep trs) none = none := by
  induction ks with
  | nil => rfl
  | cons k ks ih => exact ih

theorem compCountStep_foldl_none (trs : List (Option ℚ)) (ks : List ℕ) :
    ks.foldl (compCountStep trs) none = none := by
  induction ks with
  | nil => rfl
  | cons k ks ih => exact ih

theorem ttmStep_foldl_none (oi ppe : List (Option ℚ)) (ks : List ℕ) :
    ks.foldl (ttmStep oi ppe) none = none := by
  induction ks with
  | nil => rfl
  | cons k ks ih => exact ih

theorem compStep_foldl_all_present (trs : List (Option ℚ)) (f : ℕ → ℚ) :
    ∀ ks : List ℕ, (∀ k ∈ ks, getOpt trs k = some (f k)) → ∀ a : ℚ,
      ks.foldl (compStep trs) (some a) =
        some (a * ((ks.map fun k => 1 + f k / 100).prod)) := by
  intro ks
  induction ks with
  | nil => intro _ a; simp
  | cons k ks ih =>
    intro h a
    have hk : getOpt trs k = some (f k) := h k (List.mem_cons_self _ _)
    have hrest : ∀ k2 ∈ ks, getOpt trs k2 = some (f k2) :=
      fun k2 hm => h k2 (List.mem_cons_of_mem _ hm)
    have hstep : compStep trs (some a) k = some (a * (1 + f k / 100)) := by
      simp [compStep, hk]
    rw [List.foldl_cons, hstep, ih hrest]
    rw [List.map_cons, List.prod_cons]
    congr 1
    ring

theorem compStep_foldl_has_none (trs : List (Option ℚ)) :
    ∀ ks : List ℕ, ∀ k0 ∈ ks, getOpt trs k0 = none → ∀ acc : Option ℚ,
      ks.foldl (compStep trs) acc = none := by
  intro ks
  induction ks with
  | nil => intro k0 h; exact absurd h (List.not_mem_nil k0)
  | cons k ks ih =>
    intro k0 hmem h0 acc
    rcases List.mem_cons.1 hmem with rfl | hmem2
    · have hstep : compStep trs acc k0 = none := by
        cases acc <;> simp [compStep, h0]
      rw [List.foldl_cons, hstep, compStep_foldl_none]
    · rw [List.foldl_cons]
      exact ih k0 hmem2 h0 _

theorem compCountStep_foldl_eq (trs : List (Option ℚ)) :
    ∀ ks : List ℕ, ∀ a : ℚ, ∀ n : ℕ,
      ks.foldl (compCountStep trs) (some (a, n)) =
        (ks.foldl (compStep trs) (some a)).map fun v => (v, n + ks.length) := by
  intro ks
  induction ks with
  | nil => intro a n; simp
  | cons k ks ih =>
    intro a n
    cases hget : getOpt trs k with
    | none =>
      have h1 : compCountStep trs (some (a, n)) k = none := by simp [compCountStep, hget]
      have h2 : compStep trs (some a) k = none := by simp [compStep, hget]
      rw [List.foldl_cons, h1, compCountStep_foldl_none,
        List.foldl_cons, h2, compStep_foldl_none]
      rfl
    | some r =>
      have h1 : compCountStep trs (some (a, n)) k =
          some (a * (1 + r / 100), n + 1) := by simp [compCountStep, hget]
      have h2 : compStep trs (some a) k = some (a * (1 + r / 100)) := by
        simp [compStep, hget]
      rw [List.foldl_cons, h1, List.foldl_cons, h2, ih]
      have : n + 1 + ks.length = n + (k :: ks).length := by
        simp [List.length_cons]; omega
      rw [this]

theorem compound_eq_prod (trs : List (Option ℚ)) (f : ℕ → ℚ) (ks : List ℕ)
    (h : ∀ k ∈ ks, getOpt trs k = some (f k)) :
    compound trs ks = some (100 * ((ks.map fun k => 1 + f k / 100).prod)) :=
  compStep_foldl_all_present trs f ks h 100

theorem compound_of_none (trs : List (Option ℚ)) (ks : List ℕ) (k0 : ℕ)
    (hmem : k0 ∈ ks) (h0 : getOpt trs k0 = none) : compound trs ks = none :=
  compStep_foldl_has_none trs ks k0 hmem h0 _

theorem compoundCount_eq_compound (trs : List (Option ℚ)) (ks : List ℕ) :
    compoundCount trs ks = (compound trs ks).map fun v => (v, ks.length) := by
  have := compCountStep_foldl_eq trs ks 100 0
  simpa [compoundCount, compound] using this

theorem compStep_foldl_pos (trs : List (Option ℚ))
    (h : ∀ o ∈ trs, ∀ r : ℚ, o = some r → -100 < r) :
    ∀ ks : List ℕ, ∀ a : ℚ, 0 < a → ∀ cum : ℚ,
      ks.foldl (compStep trs) (some a) = some cum → 0 < cum := by
  intro ks
  induction ks with
  | nil =>
    intro a ha cum hc
    simp only [List.foldl_nil, Option.some.injEq] at hc
    exact hc ▸ ha
  | cons k ks ih =>
    intro a ha cum hc
    rw [List.foldl_cons] at hc
    cases hget : getOpt trs k with
    | none =>
      have hstep : compStep trs (some a) k = none := by simp [compStep, hget]
      rw [hstep, compStep_foldl_none] at hc
      exact absurd hc (by simp)
    | some r =>
      have hr : -100 < r := by
        have hj : trs[k]? = some (some r) := Option.join_eq_some.mp hget
        exact h _ (List.getElem?_mem hj) r rfl
      have hpos : 0 < a * (1 + r / 100) := by
        apply mul_pos ha
        linarith
      have hstep : compStep trs (some a) k = some (a * (1 + r / 100)) := by
        simp [compStep, hget]
      rw [hstep] at hc
      exact ih _ hpos _ hc

theorem ttmStep_foldl_all_present (oi ppe : List (Option ℚ)) (f g : ℕ → ℚ) :
    ∀ ks : List ℕ,
      (∀ k ∈ ks, getOpt oi k = some (f k) ∧ getOpt ppe k = some (g k)) →
      ∀ a b : ℚ,
        ks.foldl (ttmStep oi ppe) (some (a, b)) =
          some (a + (ks.map f).sum, b + (ks.map g).sum) := by
  intro ks
  induction ks with
  | nil => intro _ a b; simp
  | cons k ks ih =>
    intro h a b
    obtain ⟨hk1, hk2⟩ := h k (List.mem_cons_self _ _)
    have hrest : ∀ k2 ∈ ks, getOpt oi k2 = some (f k2) ∧ getOpt ppe k2 = some (g k2) :=
      fun k2 hm => h k2 (List.mem_cons_of_mem _ hm)
    have hstep : ttmStep oi ppe (some (a, b)) k = some (a + f k, b + g k) := by
      simp [ttmStep, hk1, hk2]
    rw [List.foldl_cons, hstep, ih hrest]
    simp only [List.map_cons, List.sum_cons]
    rw [add_assoc, add_assoc]

theorem ttmStep_foldl_has_none (oi ppe : List (Option ℚ)) :
    ∀ ks : List ℕ, ∀ k0 ∈ ks, (getOpt oi k0 = none ∨ getOpt ppe k0 = none) →
      ∀ acc : Option (ℚ × ℚ), ks.foldl (ttmStep oi ppe) acc = none := by
  intro ks
  induction ks with
  | nil => intro k0 h; exact absurd h (List.not_mem_nil k0)
  | cons k ks ih =>
    intro k0 hmem h0 acc
    rcases List.mem_cons.1 hmem with rfl | hmem2
    · have hstep : ttmStep oi ppe acc k0 = none := by
        rcases h0 with h0 | h0
        · cases acc with
          | none => rfl
          | some s => simp [ttmStep, h0]
        · cases acc with
          | none => rfl
          | some s =>
            cases hoi : getOpt oi k0 <;> simp [ttmStep, h0, hoi]
      rw [List.foldl_cons, hstep, ttmStep_foldl_none]
    · rw [List.foldl_cons]
      exact ih k0 hmem2 h0 _

theorem lt_length_of_getNum_pos (l : List (Option ℚ)) (j : ℕ) (h : 0 < getNum l j) :
    j < l.length := by
  by_contra hb
  rw [not_lt] at hb
  have h2 : l[j]? = none := List.getElem?_eq_none hb
  rw [getNum, getOpt, h2] at h
  simp at h

/-- Claim C2: `total_return[j]` is null exactly when `j = 0` or either
adjacent price — with a missing or null price read as 0.0 — is non-positive;
otherwise it equals
`((price[j] - price[j-1] + dividend[j]) / price[j-1]) * 100`, a missing or
null dividend being read as 0.0. -/
theorem total_return_spec (prices dividends : List (Option ℚ)) (j : ℕ) :
    (total_return prices dividends j = none ↔
      j = 0 ∨ getNum prices (j - 1) ≤ 0 ∨ getNum prices j ≤ 0)
    ∧ (j ≠ 0 → 0 < getNum prices (j - 1) → 0 < getNum prices j →
        total_return prices dividends j =
          some (((getNum prices j - getNum prices (j - 1) + getNum dividends j) /
            getNum prices (j - 1)) * 100)) := by
  have hval : ∀ hj : j ≠ 0, 0 < getNum prices (j - 1) → 0 < getNum prices j →
      total_return prices dividends j =
        some (((getNum prices j - getNum prices (j - 1) + getNum dividends j) /
          getNum prices (j - 1)) * 100) := by
    intro hj0 hprev hcur
    have hj : 0 < j := Nat.pos_of_ne_zero hj0
    have hb : j - 1 < prices.length := lt_length_of_getNum_pos prices (j - 1) hprev
    simp only [total_return]
    rw [if_pos ⟨hj, hb⟩, if_pos ⟨hprev, hcur⟩]
  refine ⟨⟨?_, ?_⟩, hval⟩
  · intro hnone
    by_contra hcon
    push_neg at hcon
    obtain ⟨hj0, hprev, hcur⟩ := hcon
    rw [hval hj0 hprev hcur] at hnone
    exact Option.noConfusion hnone
  · intro h
    simp only [total_return]
    rcases h with rfl | h | h
    · rw [if_neg]
      rintro ⟨hcon, -⟩
      exact absurd hcon (lt_irrefl 0)
    · by_cases hc : 0 < j ∧ j - 1 < prices.length
      · rw [if_pos hc, if_neg]
        rintro ⟨hcon, -⟩
        exact absurd hcon (not_lt.mpr h)
      · rw [if_neg hc]
    · by_cases hc : 0 < j ∧ j - 1 < prices.length
      · rw [if_pos hc, if_neg]
        rintro ⟨-, hcon⟩
        exact absurd hcon (not_lt.mpr h)
      · rw [if_neg hc]

/-- Witness for C2: a concrete quarter with prices 100 then 110 and a
2-unit dividend has total return `((110 - 100 + 2) / 100) * 100 = 12`. -/
theorem total_return_spec_witness :
    total_return [some 100, some 110] [none, some 2] 1 =
      some (((getNum [some 100, some 110] 1 - getNum [some 100, some 110] 0 +
        getNum [none, some 2] 1) / getNum [some 100, some 110] 0) * 100) :=
  (total_return_spec [some 100, some 110] [none, some 2] 1).2
    (by decide) (by decide) (by decide)

/-- Claim C3: the TTM EBIT/PPE ratio is null for `j < 3`; for `j ≥ 3` it is
null when any of the eight window values is out of bounds or null, and
otherwise equals the quotient of the window sums, null when the summed PPE is
zero. -/
theorem ebit_ppe_ttm_spec (oi ppe : List (Option ℚ)) (j : ℕ) :
    (j < 3 → ebit_ppe_ttm oi ppe j = none)
    ∧ (3 ≤ j → ∀ k0 ∈ List.range' (j - 3) 4,
        (getOpt oi k0 = none ∨ getOpt ppe k0 = none) → ebit_ppe_ttm oi ppe j = none)
    ∧ (∀ f g : ℕ → ℚ, 3 ≤ j →
        (∀ k ∈ List.range' (j - 3) 4,
          getOpt oi k = some (f k) ∧ getOpt ppe k = some (g k)) →
        ebit_ppe_ttm oi ppe j =
          if ((List.range' (j - 3) 4).map g).sum ≠ 0 then
            some ((((List.range' (j - 3) 4).map f).sum) /
              (((List.range' (j - 3) 4).map g).sum))
          else none) := by
  refine ⟨?_, ?_, ?_⟩
  · intro h
    rw [ebit_ppe_ttm, if_neg (by omega)]
  · intro h3 k0 hmem hnone
    rw [ebit_ppe_ttm, if_pos h3, ttmStep_foldl_has_none oi ppe _ k0 hmem hnone]
  · intro f g h3 hall
    rw [ebit_ppe_ttm, if_pos h3, ttmStep_foldl_all_present oi ppe f g _ hall 0 0]
    simp only [zero_add]

/-- Witness for C3: four quarters of operating income 1 and PPE 2 give a TTM
ratio of `4 / 8`. -/
theorem ebit_ppe_ttm_spec_witness :
    ebit_ppe_ttm [some 1, some 1, some 1, some 1] [some 2, some 2, some 2, some 2] 3 =
      if ((List.range' (3 - 3) 4).map fun _ : ℕ => (2 : ℚ)).sum ≠ 0 then
        some ((((List.range' (3 - 3) 4).map fun _ : ℕ => (1 : ℚ)).sum) /
          (((List.range' (3 - 3) 4).map fun _ : ℕ => (2 : ℚ)).sum))
      else none :=
  (ebit_ppe_ttm_spec [some 1, some 1, some 1, some 1]
    [some 2, some 2, some 2, some 2] 3).2.2 (fun _ => 1) (fun _ => 2)
    (by decide) (by decide)

/-- Claim C8: characterization of the four point-in-time ratios — each is the
indicated quotient exactly when both inputs are in bounds and non-null and the
denominator is nonzero, and null otherwise; the sign of the enterprise value
is not checked, so a negative enterprise value with positive operating income
yields a negative, still-reported EV/EBIT. -/
theorem point_in_time_ratios_spec
    (operating_income ppe_net revenue cogs enterprise_value : List (Option ℚ)) (j : ℕ) :
    (∀ x : ℚ, ebit_ppe operating_income ppe_net j = some x ↔
      ∃ a b, getOpt operating_income j = some a ∧ getOpt ppe_net j = some b ∧
        b ≠ 0 ∧ x = a / b)
    ∧ (∀ x : ℚ, gross_margin revenue cogs j = some x ↔
      ∃ a b, getOpt revenue j = some a ∧ getOpt cogs j = some b ∧
        a ≠ 0 ∧ x = (a - b) / a)
    ∧ (∀ x : ℚ, operating_margin operating_income revenue j = some x ↔
      ∃ a b, getOpt operating_income j = some a ∧ getOpt revenue j = some b ∧
        b ≠ 0 ∧ x = a / b)
    ∧ (∀ x : ℚ, ev_ebit enterprise_value operating_income j = some x ↔
      ∃ a b, getOpt enterprise_value j = some a ∧ getOpt operating_income j = some b ∧
        b ≠ 0 ∧ x = a / b)
    ∧ (∀ a b : ℚ, getOpt enterprise_value j = some a → getOpt operating_income j = some b →
        a < 0 → 0 < b →
        ev_ebit enterprise_value operating_income j = some (a / b) ∧ a / b < 0) := by
  refine ⟨?_, ?_, ?_, ?_, ?_⟩
  · intro x
    unfold ebit_ppe
    cases h1 : getOpt operating_income j <;> cases h2 : getOpt ppe_net j <;>
      simp [h1, h2]
    rename_i a b
    by_cases hb : b = 0 <;> simp [hb, eq_comm]
  · intro x
    unfold gross_margin
    cases h1 : getOpt revenue j <;> cases h2 : getOpt cogs j <;> simp [h1, h2]
    rename_i a b
    by_cases ha : a = 0 <;> simp [ha, eq_comm]
  · intro x
    unfold operating_margin
    cases h1 : getOpt operating_income j <;> cases h2 : getOpt revenue j <;>
      simp [h1, h2]
    rename_i a b
    by_cases hb : b = 0 <;> simp [hb, eq_comm]
  · intro x
    unfold ev_ebit
    cases h1 : getOpt enterprise_value j <;> cases h2 : getOpt operating_income j <;>
      simp [h1, h2]
    rename_i a b
    by_cases hb : b = 0 <;> simp [hb, eq_comm]
  · intro a b h1 h2 ha hb
    constructor
    · unfold ev_ebit
      rw [h1, h2]
      show (if b ≠ 0 then some (a / b) else none) = some (a / b)
      rw [if_pos hb.ne']
    · exact div_neg_of_neg_of_pos ha hb

/-- Witness for C8: enterprise value -10 with operating income 2 yields the
reported negative ratio `-10 / 2`. -/
theorem point_in_time_ratios_spec_witness :
    ev_ebit [some (-10)] [some 2] 0 = some ((-10) / 2) ∧ ((-10 : ℚ) / 2) < 0 :=
  (point_in_time_ratios_spec [some 2] [] [] [] [some (-10)] 0).2.2.2.2 (-10) 2
    (by decide) (by decide) (by norm_num) (by norm_num)

/-- Claim C1: for each fixed horizon H ∈ the 1y/3y/5y/10y set and for the
open horizon ending at the last index, the forward return at `j` is null
unless the end index exists and is strictly greater than `j`
(`j + H < len` for fixed horizons); it is null when any total return in the
window is null; and otherwise it equals
`((1 + cumulative_return/100) ^ (1/years) - 1) * 100`, where the running
value starts at 100.0 and is multiplied by `1 + total_return[k]/100` over the
window in ascending order, `cumulative_return` is the final value minus 100,
and `years` is the number of quarters compounded divided by 4. -/
theorem forward_return_spec (trs : List (Option ℚ)) (j H : ℕ)
    (hH : H = 4 ∨ H = 12 ∨ H = 20 ∨ H = 40) :
    (¬ j + H < trs.length → forward_return_fixed trs j H = none)
    ∧ (∀ k0 ∈ List.range' (j + 1) H, getOpt trs k0 = none →
        forward_return_fixed trs j H = none)
    ∧ (∀ f : ℕ → ℚ, j + H < trs.length →
        (∀ k ∈ List.range' (j + 1) H, getOpt trs k = some (f k)) →
        forward_return_fixed trs j H =
          some ((((1 : ℝ) +
            ((100 * ((List.range' (j + 1) H).map fun k => 1 + f k / 100).prod -
              100 : ℚ) : ℝ) / 100) ^ ((1 : ℝ) / ((H : ℝ) / 4)) - 1) * 100))
    ∧ (¬ j < trs.length - 1 → total_forward_return trs j = none)
    ∧ (∀ k0 ∈ List.range' (j + 1) (trs.length - 1 - j), getOpt trs k0 = none →
        total_forward_return trs j = none)
    ∧ (∀ f : ℕ → ℚ, j < trs.length - 1 →
        (∀ k ∈ List.range' (j + 1) (trs.length - 1 - j), getOpt trs k = some (f k)) →
        total_forward_return trs j =
          some ((((1 : ℝ) +
            ((100 * ((List.range' (j + 1) (trs.length - 1 - j)).map
                fun k => 1 + f k / 100).prod - 100 : ℚ) : ℝ) / 100) ^
              ((1 : ℝ) / (((trs.length - 1 - j : ℕ) : ℝ) / 4)) - 1) * 100)) := by
  have hHpos : 0 < H := by rcases hH with rfl | rfl | rfl | rfl <;> norm_num
  refine ⟨?_, ?_, ?_, ?_, ?_, ?_⟩
  · intro h
    rw [forward_return_fixed, if_neg h]
  · intro k0 hmem h0
    by_cases hlen : j + H < trs.length
    · rw [forward_return_fixed, if_pos hlen, compound_of_none trs _ k0 hmem h0]
    · rw [forward_return_fixed, if_neg hlen]
  · intro f hlen hall
    rw [forward_return_fixed, if_pos hlen, compound_eq_prod trs f _ hall]
    show (if 0 < H then
        some (annualize (100 * ((List.range' (j + 1) H).map fun k => 1 + f k / 100).prod) H)
      else none) = _
    rw [if_pos hHpos]
    congr 1
    rw [annualize]
    have hbase : (1 : ℝ) +
        (((100 * ((List.range' (j + 1) H).map fun k => 1 + f k / 100).prod : ℚ) : ℝ) - 100) / 100 =
        (1 : ℝ) +
        ((100 * ((List.range' (j + 1) H).map fun k => 1 + f k / 100).prod - 100 : ℚ) : ℝ) / 100 := by
      push_cast
      ring
    rw [hbase]
  · intro h
    rw [total_forward_return, if_neg h]
  · intro k0 hmem h0
    by_cases hlen : j < trs.length - 1
    · rw [total_forward_return, if_pos hlen, compoundCount_eq_compound,
        compound_of_none trs _ k0 hmem h0]
      rfl
    · rw [total_forward_return, if_neg hlen]
  · intro f hlen hall
    have hn : 0 < trs.length - 1 - j := by omega
    rw [total_forward_return, if_pos hlen, compoundCount_eq_compound,
      compound_eq_prod trs f _ hall]
    show (if 0 < (List.range' (j + 1) (trs.length - 1 - j)).length then
        some (annualize
          (100 * ((List.range' (j + 1) (trs.length - 1 - j)).map fun k => 1 + f k / 100).prod)
          (List.range' (j + 1) (trs.length - 1 - j)).length)
      else none) = _
    rw [List.length_range']
    rw [if_pos hn]
    congr 1
    rw [annualize]
    have hbase : (1 : ℝ) +
        (((100 * ((List.range' (j + 1) (trs.length - 1 - j)).map
            fun k => 1 + f k / 100).prod : ℚ) : ℝ) - 100) / 100 =
        (1 : ℝ) +
        ((100 * ((List.range' (j + 1) (trs.length - 1 - j)).map
            fun k => 1 + f k / 100).prod - 100 : ℚ) : ℝ) / 100 := by
      push_cast
      ring
    rw [hbase]

/-- Witness for C1: a five-quarter series with all-zero returns after the
first quarter has a defined 1-year forward return at index 0, given by the
annualization formula on the window product. -/
theorem forward_return_spec_witness :
    forward_return_fixed [none, some 0, some 0, some 0, some 0] 0 4 =
      some ((((1 : ℝ) +
        ((100 * ((List.range' (0 + 1) 4).map
            fun k => 1 + (fun _ : ℕ => (0 : ℚ)) k / 100).prod - 100 : ℚ) : ℝ) / 100) ^
          ((1 : ℝ) / (((4 : ℕ) : ℝ) / 4)) - 1) * 100) :=
  (forward_return_spec [none, some 0, some 0, some 0, some 0] 0 4 (Or.inl rfl)).2.2.1
    (fun _ => 0) (by decide) (by decide)

/-- The two-quarter synthetic company used against claim C6: price 100 then
200, no dividends, so the single quarterly total return is 100%. -/
def exC6 : RawInput :=
  { symbol := "EX", company_name := "Example"
    period_dates := ["2020-03-31", "2020-06-30"]
    prices := [some 100, some 200]
    dividends := [], roa := [], operating_income := [], ppe_net := []
    revenue := [], cost_of_goods_sold := [], enterprise_value := [] }

/-- Counterexample to claim C6: on `exC6` the last total return is 100 but the
open-horizon forward return at the second-to-last index is
`((1 + 100/100) ^ 4 - 1) * 100 = 1500`; the two do not agree. -/
theorem open_horizon_last_quarter_counterexample :
    total_forward_return (trList exC6) 0 ≠
      Option.map (fun q : ℚ => (q : ℝ)) (getOpt (trList exC6) 1) := by
  have htr : trList exC6 = [none, some 100] := by
    have h0 : total_return exC6.prices exC6.dividends 0 = none := by
      rw [total_return, if_neg (by omega)]
    have h1 : total_return exC6.prices exC6.dividends 1 = some 100 := by
      rw [total_return, if_pos (by norm_num [exC6]),
        if_pos (by norm_num [getNum, getOpt, exC6])]
      norm_num [getNum, getOpt, exC6]
    show (List.range exC6.period_dates.length).map
        (total_return exC6.prices exC6.dividends) = _
    rw [show exC6.period_dates.length = 2 from rfl,
      show List.range 2 = [0, 1] from rfl, List.map_cons, List.map_cons,
      List.map_nil, h0, h1]
  rw [htr]
  have hann : annualize 200 1 = 1500 := by
    rw [annualize]
    have h1 : (1 : ℝ) + (((200 : ℚ) : ℝ) - 100) / 100 = 2 := by norm_num
    have h2 : (1 : ℝ) / (((1 : ℕ) : ℝ) / 4) = ((4 : ℕ) : ℝ) := by norm_num
    rw [h1, h2, Real.rpow_natCast]
    norm_num
  have hc : compoundCount [none, some (100 : ℚ)]
      (List.range' (0 + 1) (([none, some (100 : ℚ)] : List (Option ℚ)).length - 1 - 0)) =
      some (200, 1) := by
    rw [show (([none, some (100 : ℚ)] : List (Option ℚ)).length - 1 - 0) = 1 from rfl,
      show List.range' (0 + 1) 1 = [1] from rfl,
      compoundCount, List.foldl_cons, List.foldl_nil]
    norm_num [compCountStep, getOpt]
  have hL : total_forward_return [none, some (100 : ℚ)] 0 = some (1500 : ℝ) := by
    rw [total_forward_return, if_pos (by decide), hc]
    show (if 0 < 1 then some (annualize 200 1) else none) = some (1500 : ℝ)
    rw [if_pos (by norm_num), hann]
  rw [hL]
  have hR : Option.map (fun q : ℚ => (q : ℝ)) (getOpt [none, some (100 : ℚ)] 1) =
      some ((100 : ℚ) : ℝ) := by
    rfl
  rw [hR]
  intro hcon
  have : (1500 : ℝ) = ((100 : ℚ) : ℝ) := Option.some.injEq _ _ ▸ hcon
  norm_num at this

/-- Claim C6 amended: for a series of length at least 2 whose last total
return `r` is non-null, the open-horizon forward return at the second-to-last
index equals the 4-quarter annualization of that single return,
`((1 + r/100) ^ 4 - 1) * 100` — not the raw return `r` itself (the two agree
only at `r = 0`). -/
theorem open_horizon_last_quarter_amended (trs : List (Option ℚ)) (r : ℚ)
    (hlen : 2 ≤ trs.length) (hr : getOpt trs (trs.length - 1) = some r) :
    total_forward_return trs (trs.length - 2) =
      some ((((1 : ℝ) + (r : ℝ) / 100) ^ (4 : ℝ) - 1) * 100) := by
  have hlt : trs.length - 2 < trs.length - 1 := by omega
  have hwin : trs.length - 1 - (trs.length - 2) = 1 := by omega
  rw [total_forward_return, if_pos hlt,
    show trs.length - 2 + 1 = trs.length - 1 by omega, hwin]
  have hrange : List.range' (trs.length - 1) 1 = [trs.length - 1] := rfl
  have hc : compoundCount trs (List.range' (trs.length - 1) 1) =
      some (100 * (1 + r / 100), 1) := by
    rw [hrange, compoundCount, List.foldl_cons, List.foldl_nil]
    simp [compCountStep, hr]
  rw [hc]
  show (if 0 < 1 then some (annualize (100 * (1 + r / 100)) 1) else none) = _
  rw [if_pos (by norm_num)]
  congr 1
  rw [annualize]
  have hexp : (1 : ℝ) / (((1 : ℕ) : ℝ) / 4) = (4 : ℝ) := by norm_num
  have hbase : (1 : ℝ) + (((100 * (1 + r / 100) : ℚ) : ℝ) - 100) / 100 =
      (1 : ℝ) + (r : ℝ) / 100 := by
    push_cast
    ring
  rw [hexp, hbase]

/-- Witness for the amended C6: on the concrete two-quarter series the open
forward return is the annualization of the 100% quarterly return. -/
theorem open_horizon_last_quarter_amended_witness :
    total_forward_return [none, some (100 : ℚ)]
        (([none, some (100 : ℚ)] : List (Option ℚ)).length - 2) =
      some ((((1 : ℝ) + ((100 : ℚ) : ℝ) / 100) ^ (4 : ℝ) - 1) * 100) :=
  open_horizon_last_quarter_amended [none, some 100] 100 (by decide) (by decide)

/-- Claim C10: whenever every non-null total return exceeds -100 — and the
first conjunct shows this holds automatically when stored dividends are
non-negative, with positive prices already enforced by the total-return
guard — every compounding walk (fixed and open horizon) that completes
returns a strictly positive running value, so the annualization base
`1 + (value - 100)/100` is strictly positive; no explicit sign guard exists
in the code. -/
theorem compounding_base_positive (prices dividends trs : List (Option ℚ)) :
    ((∀ o ∈ dividends, ∀ d : ℚ, o = some d → 0 ≤ d) →
      ∀ j r, total_return prices dividends j = some r → -100 < r)
    ∧ ((∀ o ∈ trs, ∀ r : ℚ, o = some r → -100 < r) →
        (∀ ks cum, compound trs ks = some cum →
          0 < cum ∧ 0 < 1 + (cum - 100) / 100)
        ∧ (∀ ks cum n, compoundCount trs ks = some (cum, n) →
          0 < cum ∧ 0 < 1 + (cum - 100) / 100)) := by
  constructor
  · intro hdiv j r hr
    by_cases h1 : 0 < j ∧ j - 1 < prices.length
    · by_cases h2 : 0 < getNum prices (j - 1) ∧ 0 < getNum prices j
      · rw [total_return] at hr
        rw [if_pos h1, if_pos h2] at hr
        obtain ⟨hprev, hcur⟩ := h2
        have hd : 0 ≤ getNum dividends j := by
          rw [getNum]
          cases hop : getOpt dividends j with
          | none => simp
          | some d =>
            have hmem : (some d) ∈ dividends :=
              List.getElem?_mem (Option.join_eq_some.mp hop)
            simpa using hdiv _ hmem d rfl
        have hval : -100 <
            ((getNum prices j - getNum prices (j - 1) + getNum dividends j) /
              getNum prices (j - 1)) * 100 := by
          rw [div_mul_eq_mul_div, lt_div_iff₀ hprev]
          nlinarith
        have hreq : r =
            ((getNum prices j - getNum prices (j - 1) + getNum dividends j) /
              getNum prices (j - 1)) * 100 := by
          exact (Option.some.injEq _ _ ▸ hr).symm
        rw [hreq]
        exact hval
      · rw [total_return, if_pos h1, if_neg h2] at hr
        exact Option.noConfusion hr
    · rw [total_return, if_neg h1] at hr
      exact Option.noConfusion hr
  · intro htrs
    have hbase : ∀ cum : ℚ, 0 < cum → 0 < 1 + (cum - 100) / 100 := by
      intro cum hcum
      have : 1 + (cum - 100) / 100 = cum / 100 := by ring
      rw [this]
      positivity
    constructor
    · intro ks cum hc
      have hpos : 0 < cum := compStep_foldl_pos trs htrs ks 100 (by norm_num) cum hc
      exact ⟨hpos, hbase cum hpos⟩
    · intro ks cum n hc
      rw [compoundCount_eq_compound] at hc
      cases hcomp : compound trs ks with
      | none =>
        rw [hcomp] at hc
        exact Option.noConfusion hc
      | some v =>
        rw [hcomp] at hc
        have hv : v = cum := by
          have := Option.some.injEq _ _ ▸ hc
          exact (Prod.mk.injEq _ _ _ _ ▸ this).1
        have hpos : 0 < cum :=
          hv ▸ compStep_foldl_pos trs htrs ks 100 (by norm_num) v hcomp
        exact ⟨hpos, hbase cum hpos⟩

/-- Witness for C10: the walk over returns -50% then +20% ends at the
positive value 60, with positive annualization base. -/
theorem compounding_base_positive_witness :
    (0 : ℚ) < 60 ∧ (0 : ℚ) < 1 + (60 - 100) / 100 :=
  (((compounding_base_positive [] [] [some (-50), some 20]).2
      (by
        intro o ho r hr
        fin_cases ho <;> cases hr <;> norm_num)).1)
    [0, 1] 60
    (by
      rw [compound, List.foldl_cons, List.foldl_cons, List.foldl_nil]
      norm_num [compStep, getOpt])

theorem poolStep_foldl (es : List PoolEntry) :
    ∀ acc : List ℚ × List ℚ, es.foldl poolStep acc =
      (acc.1 ++ (es.filterMap pairOf).map Prod.fst,
        acc.2 ++ (es.filterMap pairOf).map Prod.snd) := by
  induction es with
  | nil => intro acc; simp
  | cons e es ih =>
    intro acc
    rw [List.foldl_cons, ih]
    cases hp : pairOf e with
    | none => simp [poolStep, hp, List.filterMap_cons]
    | some p => simp [poolStep, hp, List.filterMap_cons]

theorem extract_eq_pooledPairs (data : List PoolCompany) :
    extract_roa_forward_return_pairs data =
      ((pooledPairs data).map Prod.fst, (pooledPairs data).map Prod.snd) := by
  suffices h : ∀ acc : List ℚ × List ℚ,
      data.foldl (fun acc stock => stock.data.foldl poolStep acc) acc =
        (acc.1 ++ (pooledPairs data).map Prod.fst,
          acc.2 ++ (pooledPairs data).map Prod.snd) by
    simpa [extract_roa_forward_return_pairs] using h ([], [])
  induction data with
  | nil => intro acc; simp [pooledPairs]
  | cons c cs ih =>
    intro acc
    rw [List.foldl_cons, poolStep_foldl, ih]
    simp [pooledPairs, List.flatMap_cons, List.append_assoc]

theorem zip_of_extract (l : List (ℚ × ℚ)) :
    (l.map Prod.fst).zip (l.map Prod.snd) = l := by
  induction l with
  | nil => rfl
  | cons p l ih => simp [ih]

/-- Claim C7: the pool-and-filter stage keeps a pair exactly when both the
feature and the target are present, and the multiset of kept pairs is
invariant under permuting the company order and each company's quarter
order. -/
theorem pool_and_filter_spec :
    (∀ e : PoolEntry, (pairOf e).isSome ↔ e.roa.isSome ∧ e.forward_return.isSome)
    ∧ ∀ l1 mid l2 : List PoolCompany, l1.Perm mid →
        List.Forall₂ (fun a b => a.data.Perm b.data) mid l2 →
        (((extract_roa_forward_return_pairs l1).1.zip
            (extract_roa_forward_return_pairs l1).2 : List (ℚ × ℚ)) : Multiset (ℚ × ℚ)) =
          (((extract_roa_forward_return_pairs l2).1.zip
            (extract_roa_forward_return_pairs l2).2 : List (ℚ × ℚ)) : Multiset (ℚ × ℚ)) := by
  constructor
  · intro e
    cases h1 : e.roa <;> cases h2 : e.forward_return <;> simp [pairOf, h1, h2]
  · intro l1 mid l2 hperm hf2
    rw [extract_eq_pooledPairs, extract_eq_pooledPairs, zip_of_extract, zip_of_extract,
      Multiset.coe_eq_coe]
    refine (hperm.flatMap_right _).trans ?_
    clear hperm
    induction hf2 with
    | nil => exact List.Perm.refl _
    | cons hab htail ih =>
      simp only [pooledPairs, List.flatMap_cons]
      exact (hab.filterMap _).append ih

/-- Concrete companies for the C7 witness. -/
def poolE1 : PoolEntry := ⟨some 1, some 2⟩

def poolE2 : PoolEntry := ⟨none, some 3⟩

def poolE3 : PoolEntry := ⟨some 4, none⟩

def poolL1 : List PoolCompany := [⟨"A", [poolE1, poolE2]⟩, ⟨"B", [poolE3]⟩]

def poolMid : List PoolCompany := [⟨"B", [poolE3]⟩, ⟨"A", [poolE1, poolE2]⟩]

def poolL2 : List PoolCompany := [⟨"B", [poolE3]⟩, ⟨"A", [poolE2, poolE1]⟩]

/-- Witness for C7: reordering the two companies and the quarters of company
A leaves the pooled pair multiset unchanged. -/
theorem pool_and_filter_spec_witness :
    (((extract_roa_forward_return_pairs poolL1).1.zip
        (extract_roa_forward_return_pairs poolL1).2 : List (ℚ × ℚ)) : Multiset (ℚ × ℚ)) =
      (((extract_roa_forward_return_pairs poolL2).1.zip
        (extract_roa_forward_return_pairs poolL2).2 : List (ℚ × ℚ)) : Multiset (ℚ × ℚ)) :=
  pool_and_filter_spec.2 poolL1 poolMid poolL2 (by decide)
    (List.Forall₂.cons (by decide) (List.Forall₂.cons (by decide) List.Forall₂.nil))

/-- Claim C4: `calculate_correlations` raises a loud, catchable error
(`ValueError`) when the two input sequences differ in length; with matching
lengths but fewer than 2 pairs it does not raise, and instead returns a
structured result reporting `n_pairs`, carrying null correlation fields and
flagging the insufficient-data condition — the two failure classes are
distinguishable as `Except.error` versus `Except.ok`. -/
theorem calculate_correlations_failure_classes (pm : PValModel) (xs ys : List ℚ) :
    (xs.length ≠ ys.length →
      calculate_correlations pm xs ys =
        .error (.valueError "ROA and forward return lists must have the same length"))
    ∧ (xs.length = ys.length → xs.length < 2 →
      ∃ res : CorrResult, calculate_correlations pm xs ys = .ok res ∧
        res.n_pairs = xs.length ∧
        res.pearson_correlation = none ∧ res.pearson_pvalue = none ∧
        res.ranked_correlation = none ∧ res.ranked_pvalue = none ∧
        res.spearman_correlation = none ∧ res.spearman_pvalue = none ∧
        res.roa_ranks = [] ∧ res.forward_return_ranks = [] ∧
        res.error = some "Insufficient data points for correlation") := by
  constructor
  · intro h
    rw [calculate_correlations, if_pos h]
  · intro heq hlt
    rw [calculate_correlations, if_neg (by omega), if_pos hlt]
    exact ⟨_, rfl, rfl, rfl, rfl, rfl, rfl, rfl, rfl, rfl, rfl, rfl⟩

/-- Witness for C4: a length-1 versus length-2 input raises, while a matched
single pair returns the degenerate structured result. -/
theorem calculate_correlations_failure_classes_witness :
    (calculate_correlations pmNone [1] [1, 2] =
      .error (.valueError "ROA and forward return lists must have the same length"))
    ∧ ∃ res : CorrResult, calculate_correlations pmNone [1] [1] = .ok res ∧
        res.n_pairs = ([1] : List ℚ).length ∧
        res.pearson_correlation = none ∧ res.pearson_pvalue = none ∧
        res.ranked_correlation = none ∧ res.ranked_pvalue = none ∧
        res.spearman_correlation = none ∧ res.spearman_pvalue = none ∧
        res.roa_ranks = [] ∧ res.forward_return_ranks = [] ∧
        res.error = some "Insufficient data points for correlation" :=
  ⟨(calculate_correlations_failure_classes pmNone [1] [1, 2]).1 (by decide),
    (calculate_correlations_failure_classes pmNone [1] [1]).2 rfl (by decide)⟩

/-- Claim C5 (code bug): on the tied input X = [1,1,1], Y = [1,2,3] the
average-method ranks of X are [2,2,2], so the code's own rank-range assertion
(`roa_ranks.min() == 1`, `correlations.py` line 101) is false and
`calculate_correlations` raises `AssertionError` instead of returning the
NaN-flagged structured result the specification expects. -/
theorem tied_input_assertion_failure :
    rankdata_average [1, 1, 1] = [2, 2, 2] ∧
    calculate_correlations pmNone [1, 1, 1] [1, 2, 3] =
      .error (.assertionError "ROA ranks should range from 1 to 3") := by
  have hrank : rankdata_average [1, 1, 1] = [2, 2, 2] := by
    norm_num [rankdata_average, List.countP_cons, List.countP_nil]
  have h1 : ranksSpanOk (rankdata_average [1, 1, 1]) 3 = false := by
    rw [hrank]
    decide
  refine ⟨hrank, ?_⟩
  rw [calculate_correlations, if_neg (by decide), if_neg (by decide),
    if_neg (by simp [h1])]
  exact congrArg Except.error (by decide)

/-- A minimal one-quarter company used against claim C9. -/
def exC9 : RawInput :=
  { symbol := "EX9", company_name := "Example9"
    period_dates := ["2020-03-31"]
    prices := [some 10]
    dividends := [some 1], roa := [some 5], operating_income := [some 3]
    ppe_net := [some 6], revenue := [some 9], cost_of_goods_sold := [some 4]
    enterprise_value := [some 20] }

/-- Counterexample to claim C9: the derivation-stage entry for the concrete
company `exC9` carries no `operating_income` field at all (nor the other raw
accounting fields), so the per-quarter entries do not carry every field the
section-3 data model enumerates. -/
theorem entry_fields_counterexample :
    "operating_income" ∉ (quarterly_entry exC9 0).map Prod.fst := by
  simp [quarterly_entry]

/-- Claim C9 amended: every derivation-stage entry carries exactly the fields
`period`, `price`, `dividends`, `roa`, `ebit_ppe`, `gross_margin`,
`operating_margin`, `ev_ebit`, `total_return`, `forward_return_1y/3y/5y/10y`,
`forward_return`, `ebit_ppe_ttm` (in insertion order) — the raw accounting
fields are never stored — and every persisted entry carries exactly `period`,
`total_return`, `forward_return`, `forward_return_1y/3y/5y/10y`, `roa`,
`ebit_ppe`, `ebit_ppe_ttm`, `gross_margin`, `operating_margin`, `ev_ebit`,
dropping `price` and `dividends`. -/
theorem entry_fields_amended :
    (∀ inp : RawInput, ∀ j : ℕ, (quarterly_entry inp j).map Prod.fst =
      ["period", "price", "dividends", "roa", "ebit_ppe", "gross_margin",
        "operating_margin", "ev_ebit", "total_return", "forward_return_1y",
        "forward_return_3y", "forward_return_5y", "forward_return_10y",
        "forward_return", "ebit_ppe_ttm"])
    ∧ (∀ e : List (String × FieldVal), (output_entry e).map Prod.fst =
      ["period", "total_return", "forward_return", "forward_return_1y",
        "forward_return_3y", "forward_return_5y", "forward_return_10y", "roa",
        "ebit_ppe", "ebit_ppe_ttm", "gross_margin", "operating_margin",
        "ev_ebit"]) :=
  ⟨fun inp j => by simp [quarterly_entry], fun e => by simp [output_entry]⟩

end StockScorer
